import Mathlib

/-!
Verification development for the CanvasExt study-assistant backend
(`src/agents/root_agent.py`, `src/agents/file_selector_agent.py`).

The Python code is shallowly embedded: every external AI call is represented
by the *parsed* value the code extracts from the call's response (an `Option`
that is `none` exactly when the call returned nothing or its output could not
be parsed — both cases make the code take the same fallback branch), and the
in-place mutations the selector performs on the caller's list of summary
records are modelled by functions returning the post-call state of that list.
Scores are rationals: the claims under study only compare scores, never
exercise floating-point rounding.
-/

namespace CanvasExt

/-- Split a character list at the first occurrence of `sep`
(Python `s.split(sep, 1)` in the case where `sep` occurs):
`some (before, after)`, or `none` when `sep` does not occur. -/
def splitOnce (sep : Char) : List Char → Option (List Char × List Char)
  | [] => none
  | c :: cs =>
    if c = sep then some ([], cs)
    else
      match splitOnce sep cs with
      | none => none
      | some (a, b) => some (c :: a, b)

/-- Split at the last occurrence of `sep` (Python `s.rsplit(sep, 1)` when
`sep` occurs): `some (before, after)`, or `none` when `sep` does not occur. -/
def rsplitOnce (sep : Char) (l : List Char) : Option (List Char × List Char) :=
  match splitOnce sep l.reverse with
  | none => none
  | some (a, b) => some (b.reverse, a.reverse)

/-- Character-level model of `RootAgent.strip_extension_for_matching`
(root_agent.py:16-45): split the identifier at the first `'_'` into
`(course_id, filename)`; if the filename contains a `'.'`, drop everything
from the last `'.'` on; otherwise return the identifier unchanged. -/
def stripExtChars (doc_id : List Char) : List Char :=
  match splitOnce '_' doc_id with
  | none => doc_id
  | some (course_id, filename) =>
    match rsplitOnce '.' filename with
    | none => doc_id
    | some (base, _) => course_id ++ '_' :: base

/-- String-level wrapper, the function named in the source. -/
def strip_extension_for_matching (doc_id : String) : String :=
  ⟨stripExtChars doc_id.data⟩

/-- The part of the identifier after the first `'_'` contains at most one
`'.'` (Boolean, so that it can be evaluated on concrete identifiers). -/
def singleDotted (x : List Char) : Bool :=
  match splitOnce '_' x with
  | none => true
  | some (_, f) => decide (f.count '.' ≤ 1)

lemma splitOnce_eq_none {sep : Char} : ∀ {l : List Char}, sep ∉ l → splitOnce sep l = none
  | [], _ => rfl
  | c :: cs, h => by
    have hc : ¬ c = sep := fun hcs => h (hcs ▸ List.mem_cons_self c cs)
    have ht : sep ∉ cs := fun hm => h (List.mem_cons_of_mem c hm)
    simp [splitOnce, hc, splitOnce_eq_none ht]

lemma splitOnce_eq_some {sep : Char} :
    ∀ {l a b : List Char}, splitOnce sep l = some (a, b) → sep ∉ a ∧ l = a ++ sep :: b
  | [], a, b, h => by simp [splitOnce] at h
  | c :: cs, a, b, h => by
    by_cases hc : c = sep
    · simp [splitOnce, hc] at h
      obtain ⟨ha, hb⟩ := h
      subst ha; subst hb; subst hc
      exact ⟨List.not_mem_nil _, rfl⟩
    · simp only [splitOnce, if_neg hc] at h
      cases hrec : splitOnce sep cs with
      | none => rw [hrec] at h; simp at h
      | some p =>
        obtain ⟨a', b'⟩ := p
        rw [hrec] at h
        simp at h
        obtain ⟨ha, hb⟩ := h
        obtain ⟨hmem, heq⟩ := splitOnce_eq_some hrec
        subst ha; subst hb
        constructor
        · intro hx
          rcases List.mem_cons.1 hx with h1 | h2
          · exact hc h1.symm
          · exact hmem h2
        · simp [heq]

lemma splitOnce_append {sep : Char} :
    ∀ {a : List Char}, sep ∉ a → ∀ b : List Char, splitOnce sep (a ++ sep :: b) = some (a, b)
  | [], _, b => by simp [splitOnce]
  | c :: cs, h, b => by
    have hc : ¬ c = sep := fun hcs => h (hcs ▸ List.mem_cons_self c cs)
    have ht : sep ∉ cs := fun hm => h (List.mem_cons_of_mem c hm)
    simp [splitOnce, hc, splitOnce_append ht b]

lemma stripExtChars_of_single_dot {x : List Char} (h : singleDotted x = true) :
    stripExtChars (stripExtChars x) = stripExtChars x := by
  cases hsplit : splitOnce '_' x with
  | none =>
    have hx : stripExtChars x = x := by simp [stripExtChars, hsplit]
    rw [hx, hx]
  | some pf =>
    obtain ⟨p, f⟩ := pf
    cases hrs : rsplitOnce '.' f with
    | none =>
      have hx : stripExtChars x = x := by simp [stripExtChars, hsplit, hrs]
      rw [hx, hx]
    | some be =>
      obtain ⟨base, ext⟩ := be
      have hx : stripExtChars x = p ++ '_' :: base := by
        simp [stripExtChars, hsplit, hrs]
      -- `singleDotted` gives the dot bound on the filename part
      have hcount : f.count '.' ≤ 1 := by
        unfold singleDotted at h
        rw [hsplit] at h
        exact of_decide_eq_true h
      -- unpack the rsplit: f.reverse = a ++ '.' :: b with '.' ∉ a
      have hrs' := hrs
      unfold rsplitOnce at hrs'
      cases hsp : splitOnce '.' f.reverse with
      | none => rw [hsp] at hrs'; simp at hrs'
      | some ab =>
        obtain ⟨a, b⟩ := ab
        rw [hsp] at hrs'
        simp at hrs'
        obtain ⟨hbase, hext⟩ := hrs'
        obtain ⟨hnota, heq⟩ := splitOnce_eq_some hsp
        -- count the dots of f: one for the split point, none in a, so b has none
        have hcf : f.count '.' = b.count '.' + 1 := by
          have h1 : f.reverse.count '.' = f.count '.' := List.count_reverse ..
          rw [heq] at h1
          have hca : a.count '.' = 0 := List.count_eq_zero.2 hnota
          simp [List.count_append, hca, List.count_cons] at h1
          omega
        have hbzero : b.count '.' = 0 := by omega
        have hnotb : '.' ∉ b := List.count_eq_zero.1 hbzero
        have hnotbase : '.' ∉ base := by
          intro hmem
          apply hnotb
          have hb : base = b.reverse := hbase.symm
          rw [hb] at hmem
          exact List.mem_reverse.1 hmem
        -- '_' does not occur in p, so the second pass splits at the same point
        have hnotp : '_' ∉ p := (splitOnce_eq_some hsplit).1
        have hsplit2 : splitOnce '_' (p ++ '_' :: base) = some (p, base) :=
          splitOnce_append hnotp base
        -- base has no dot, so the second pass finds no extension
        have hrs2 : rsplitOnce '.' base = none := by
          unfold rsplitOnce
          rw [splitOnce_eq_none (by simpa using hnotbase)]
        rw [hx]
        simp [stripExtChars, hsplit2, hrs2]

/-- C2 (amended): `strip_extension_for_matching` is a pure total function, is
extension-insensitive ("101_Notes.pptx" and "101_Notes.pdf" both normalize to
"101_Notes"), and is idempotent on every identifier whose part after the first
underscore contains at most one dot; unrestricted idempotence fails (see the
counterexample). -/
theorem C2_normalize_idempotent_amended (x : List Char) (h : singleDotted x = true) :
    stripExtChars (stripExtChars x) = stripExtChars x ∧
    strip_extension_for_matching "101_Notes.pptx" = "101_Notes" ∧
    strip_extension_for_matching "101_Notes.pdf" = "101_Notes" :=
  ⟨stripExtChars_of_single_dot h, by decide, by decide⟩

/-- C2 counterexample: on an identifier whose filename part contains two dots
the normalization is not idempotent — a second application strips a further
suffix: "123_Notes.v2.pdf" normalizes to "123_Notes.v2", which normalizes
again to "123_Notes". -/
theorem C2_cex :
    strip_extension_for_matching (strip_extension_for_matching "123_Notes.v2.pdf") ≠
      strip_extension_for_matching "123_Notes.v2.pdf" := by decide

/-- C2 witness: the amended idempotence evaluated on "101_Notes.pptx". -/
theorem C2_witness :
    singleDotted "101_Notes.pptx".data = true ∧
    (stripExtChars (stripExtChars "101_Notes.pptx".data) = stripExtChars "101_Notes.pptx".data ∧
      strip_extension_for_matching "101_Notes.pptx" = "101_Notes" ∧
      strip_extension_for_matching "101_Notes.pdf" = "101_Notes") :=
  ⟨by decide, C2_normalize_idempotent_amended _ (by decide)⟩

/-!
## Data model of the selector (file_selector_agent.py)

A summary record is a Python dict with the upstream keys `doc_id`, `filename`,
`summary`, `topics` (`metadata` is only interpolated into prompts and is not
modelled), plus the keys the selector itself may write into the record:
`_score`, `_anchor_score`, `_anchor_reasoning` (absent keys are `none`).
-/

/-- A document-summary record. -/
structure Doc where
  docId : String
  filename : String
  summary : String
  topics : List String
  score : Option ℚ := none
  anchorScore : Option ℚ := none
  anchorReasoning : Option String := none
  deriving Repr, DecidableEq

/-- The upstream (read-only per the spec) fields of a record. -/
def Doc.core (d : Doc) : String × String × String × List String :=
  (d.docId, d.filename, d.summary, d.topics)

/-- Effective score of a record: Python reads `f.get('_score', 0)`, so a
record without the `_score` key counts as 0. -/
def Doc.effScore (d : Doc) : ℚ :=
  d.score.getD 0

/-- One anchor item of the parsed JSON array returned by the anchor call:
`{doc_id, filename, reasoning}` (the filename is only echoed in prompts). -/
structure AnchorSel where
  docId : String
  reasoning : String
  deriving Repr, DecidableEq

/-- A progress event as pushed through the status callback: a stage name and
the optional count (the free-text message is not modelled). -/
structure Event where
  stage : String
  count : Option Nat
  deriving Repr, DecidableEq

/-- The value `_analyze_query_intent` (file_selector_agent.py:355-426) hands
back to its caller. `dict` is a response that json-parses to an object — only
the fields the callers read through `.get` are modelled. `nonDict` is a
response that json-parses to something other than an object (e.g. a JSON
array): no exception is raised inside the helper, so it escapes the helper's
own try/except and is returned as-is — and the caller's subsequent
`query_intent.get(...)` raises `AttributeError`. -/
inductive IntentResult where
  | dict (mainTopic queryType scope : String) (contextHints : List String)
  | nonDict
  deriving Repr, DecidableEq

/-- The parsed results of the selector's four external AI calls. For the
anchor/keyword/scoring calls, `none` means the call returned no usable
response or its output failed to parse — both make the code take the same
fallback branch. For the intent call, `none` means no response or a
json.loads failure (both recovered to the default intent inside the helper),
while `some (.nonDict)` is the parsed-but-not-an-object outcome that escapes
the helper unrecovered. -/
structure Oracle where
  intent : Option IntentResult := none
  anchors : Option (List AnchorSel) := none
  keywords : Option (List String) := none
  scores : Option (List (String × ℚ)) := none

/-!
## Stable descending sort

`file_summaries.sort(key=lambda x: x.get('_score', 0), reverse=True)`
(file_selector_agent.py:688) is Python's stable sort: scores non-increasing,
ties keep their original relative order. Modelled as insertion sort where a
new element (earlier in the input) is placed before every element of equal
score.
-/

/-- Insert `x` before the first element whose effective score is `≤` that of
`x`; elements with strictly greater score stay in front. -/
def insertDesc (x : Doc) : List Doc → List Doc
  | [] => [x]
  | y :: ys => if x.effScore < y.effScore then y :: insertDesc x ys else x :: y :: ys

/-- Stable sort by effective score, non-increasing. -/
def sortDesc : List Doc → List Doc
  | [] => []
  | x :: xs => insertDesc x (sortDesc xs)

lemma insertDesc_perm (x : Doc) (l : List Doc) : List.Perm (insertDesc x l) (x :: l) := by
  induction l with
  | nil => simp [insertDesc]
  | cons y ys ih =>
    by_cases h : x.effScore < y.effScore
    · rw [insertDesc, if_pos h]
      exact (ih.cons y).trans (List.Perm.swap x y ys)
    · simp [insertDesc, h]

lemma sortDesc_perm (l : List Doc) : List.Perm (sortDesc l) l := by
  induction l with
  | nil => simp [sortDesc]
  | cons x xs ih => exact (insertDesc_perm x (sortDesc xs)).trans (ih.cons x)

lemma insertDesc_pairwise (x : Doc) {l : List Doc}
    (h : l.Pairwise (fun a b => b.effScore ≤ a.effScore)) :
    (insertDesc x l).Pairwise (fun a b => b.effScore ≤ a.effScore) := by
  induction l with
  | nil => simp [insertDesc]
  | cons y ys ih =>
    rcases List.pairwise_cons.1 h with ⟨hy, hys⟩
    by_cases hlt : x.effScore < y.effScore
    · rw [insertDesc, if_pos hlt]
      refine List.pairwise_cons.2 ⟨?_, ih hys⟩
      intro z hz
      have hz' : z ∈ x :: ys := (insertDesc_perm x ys).mem_iff.1 hz
      rcases List.mem_cons.1 hz' with hzx | hzy
      · exact hzx ▸ le_of_lt hlt
      · exact hy z hzy
    · rw [insertDesc, if_neg hlt]
      push_neg at hlt
      refine List.pairwise_cons.2 ⟨?_, h⟩
      intro z hz
      rcases List.mem_cons.1 hz with hzy | hzys
      · exact hzy ▸ hlt
      · exact le_trans (hy z hzys) hlt

lemma sortDesc_pairwise (l : List Doc) :
    (sortDesc l).Pairwise (fun a b => b.effScore ≤ a.effScore) := by
  induction l with
  | nil => simp [sortDesc]
  | cons x xs ih => exact insertDesc_pairwise x ih

lemma filter_insertDesc (x : Doc) (l : List Doc) (q : ℚ) :
    (insertDesc x l).filter (fun d => decide (d.effScore = q)) =
      if x.effScore = q then x :: l.filter (fun d => decide (d.effScore = q))
      else l.filter (fun d => decide (d.effScore = q)) := by
  induction l with
  | nil => by_cases h : x.effScore = q <;> simp [insertDesc, h]
  | cons y ys ih =>
    by_cases hlt : x.effScore < y.effScore
    · rw [insertDesc, if_pos hlt]
      by_cases hy : y.effScore = q
      · have hx : ¬ x.effScore = q := by
          intro hxq
          rw [hxq, hy] at hlt
          exact lt_irrefl q hlt
        simp [List.filter_cons, hy, hx, ih]
      · by_cases hx : x.effScore = q <;> simp [List.filter_cons, hy, hx, ih]
    · rw [insertDesc, if_neg hlt]
      by_cases hx : x.effScore = q <;> simp [List.filter_cons, hx]

lemma filter_sortDesc (l : List Doc) (q : ℚ) :
    (sortDesc l).filter (fun d => decide (d.effScore = q)) =
      l.filter (fun d => decide (d.effScore = q)) := by
  induction l with
  | nil => simp [sortDesc]
  | cons x xs ih =>
    rw [sortDesc, filter_insertDesc]
    by_cases hx : x.effScore = q <;> simp [List.filter_cons, hx, ih]

lemma pairwise_of_all_zero {l : List Doc} (h : ∀ d ∈ l, d.effScore = 0) :
    l.Pairwise (fun a b => b.effScore ≤ a.effScore) := by
  induction l with
  | nil => simp
  | cons x xs ih =>
    refine List.pairwise_cons.2 ⟨?_, ih fun d hd => h d (List.mem_cons_of_mem x hd)⟩
    intro z hz
    rw [h z (List.mem_cons_of_mem x hz), h x (List.mem_cons_self x xs)]

/-!
## Scoring, anchors, and the two selection pipelines

The scorer `_score_files_with_anchors` (file_selector_agent.py:622-694)
operates IN PLACE on the caller's `file_summaries` list: it writes the
`_score` key into every record and sorts the list. Its model therefore
returns the post-call state of the caller's list. A `none` response means
"the scoring call failed entirely" (no response, unparsable JSON, or a JSON
value on which the lookup raises): the caught exception path returns the
input list unchanged.
-/

/-- Look up a doc_id in the parsed score object (Python `scores.get(doc_id, 0.0)`
defaults missing entries to 0). -/
def lookupScore : List (String × ℚ) → String → Option ℚ
  | [], _ => none
  | (a, v) :: rest, k => if a = k then some v else lookupScore rest k

/-- Write the `_score` key of one record from the parsed score object. -/
def assignScore (scores : List (String × ℚ)) (d : Doc) : Doc :=
  { d with score := some ((lookupScore scores d.docId).getD 0) }

/-- Apply the parsed scores to every record; identity when the call failed. -/
def assignAll (resp : Option (List (String × ℚ))) (l : List Doc) : List Doc :=
  match resp with
  | none => l
  | some scores => l.map (assignScore scores)

/-- Model of `_score_files_with_anchors`: on success, score every record and
stable-sort by score descending; on failure, return the caller's list
unchanged (original order, no `_score` keys written). -/
def scoreFilesWithAnchors (resp : Option (List (String × ℚ))) (docs : List Doc) : List Doc :=
  match resp with
  | none => docs
  | some scores => sortDesc (docs.map (assignScore scores))

/-- Case-insensitive substring utilities for the filename heuristics and the
rate-limit check (ASCII lowering, matching Python `str.lower()` here). -/
def lowerChars (l : List Char) : List Char :=
  l.map Char.toLower

/-- Does `needle` start `haystack`? -/
def startsWith : List Char → List Char → Bool
  | [], _ => true
  | _ :: _, [] => false
  | a :: as, b :: bs => a = b && startsWith as bs

/-- Does `needle` occur inside `haystack` (Python `needle in haystack`)? -/
def containsSub (needle : List Char) : List Char → Bool
  | [] => startsWith needle []
  | h :: t => startsWith needle (h :: t) || containsSub needle t

/-- The fixed authority markers of the legacy heuristic anchor finder
(`_identify_anchor_files`, file_selector_agent.py:525-529). -/
def anchorNameKeywords : List (List Char) :=
  ["study guide".data, "review".data, "recap".data, "rubric".data, "study_guide".data,
   "exam review".data, "test review".data, "practice".data, "summary".data, "overview".data,
   "syllabus".data, "outline".data]

/-- A record is a heuristic anchor when its lowercased filename contains one
of the authority markers. -/
def isHeuristicAnchor (d : Doc) : Bool :=
  anchorNameKeywords.any (fun k => containsSub k (lowerChars d.filename.data))

/-- The heuristic finder writes `_anchor_score = 1.0` into each matched
record (in-place on the caller's records). -/
def heuristicMark (d : Doc) : Doc :=
  if isHeuristicAnchor d then { d with anchorScore := some 1 } else d

/-- Model of `_identify_anchor_files`: mark matching records and return the
first five of them. (The source sorts the matches by `_anchor_score`
descending before truncating; every match carries the constant score 1.0 and
Python's sort is stable, so that sort is the identity.) Returns the post-call
state of the caller's list and the anchor list. -/
def identifyAnchorFilesH (docs : List Doc) : List Doc × List Doc :=
  let updated := docs.map heuristicMark
  (updated, (updated.filter isHeuristicAnchor).take 5)

/-- The doc_ids named by the parsed anchor response. -/
def anchorIds (sel : List AnchorSel) : List String :=
  sel.map AnchorSel.docId

/-- Write `_anchor_reasoning` (first matching reasoning, defaulting to "")
and `_anchor_score = 1.0` into one matched record. -/
def markAnchors (sel : List AnchorSel) (d : Doc) : Doc :=
  { d with
    anchorReasoning :=
      some (((sel.find? (fun a => decide (a.docId = d.docId))).map AnchorSel.reasoning).getD ""),
    anchorScore := some 1 }

/-- Model of `_identify_anchors_ai` (file_selector_agent.py:428-514): on a
parsed response, mark every candidate whose doc_id is named and collect the
marked ones in candidate order, truncated to `max_anchors`; on failure (or no
response) nothing is marked and no anchors are returned. Returns the
post-call state of the caller's list and the anchor list. -/
def identifyAnchorsAI (resp : Option (List AnchorSel)) (docs : List Doc) (maxAnchors : Nat) :
    List Doc × List Doc :=
  match resp with
  | none => (docs, [])
  | some sel =>
    let updated := docs.map (fun d => if d.docId ∈ anchorIds sel then markAnchors sel d else d)
    (updated, (updated.filter (fun d => decide (d.docId ∈ anchorIds sel))).take maxAnchors)

/-- Anchor identification followed by the heuristic fallback used by both
pipelines ("If AI selection fails, use legacy heuristics"). -/
def anchorPhase (o : Oracle) (docs : List Doc) (maxAnchors : Nat) : List Doc × List Doc :=
  if (identifyAnchorsAI o.anchors docs maxAnchors).2 = [] then
    identifyAnchorFilesH (identifyAnchorsAI o.anchors docs maxAnchors).1
  else identifyAnchorsAI o.anchors docs maxAnchors

/-- Model of `_analyze_query_intent`: a missing or unparsable response is
recovered inside the helper to the default intent derived from the raw query;
a parsed value — object or not — is returned as-is. A `dict` result only
shapes the prompts of later calls (whose parsed results are oracle inputs);
a `nonDict` result crashes the caller at its first `query_intent.get`. -/
def analyzeQueryIntent (o : Oracle) (query : String) : IntentResult :=
  match o.intent with
  | none => .dict (query.take 100) "general" "detailed" []
  | some r => r

/-- Model of `_extract_anchor_keywords`: parsed keywords, or the topics of
the first three anchors truncated to 20 on a parse failure ([] when there is
no response at all — the distinction is invisible downstream because the
keywords only feed the scoring prompt). -/
def extractAnchorKeywords (o : Oracle) (anchors : List Doc) : List String :=
  if anchors = [] then []
  else
    match o.keywords with
    | some ks => ks
    | none => (((anchors.take 3).map Doc.topics).foldr (· ++ ·) []).take 20

/-- Model of `global_discovery` (file_selector_agent.py:111-218): intent,
anchor phase (max 5 anchors), keyword extraction, scoring, truncation to
`maxFiles`; the six stage events are pushed when a status callback is
present. When the intent response parses to a non-dict, the `query_intent.get`
at line 148 raises `AttributeError`, caught only by the pipeline's outer
except (lines 214-218), which returns `[]` — at that point only
`analyzing_query` (emitted before the intent call, line 144) has fired. -/
def globalDiscovery (o : Oracle) (query : String) (docs : List Doc) (maxFiles : Nat)
    (cb : Bool) : List Doc × List Event :=
  match analyzeQueryIntent o query with
  | .nonDict =>
    ([], if cb then [⟨"analyzing_query", none⟩] else [])
  | .dict _ _ _ _ =>
    let phase := anchorPhase o docs 5
    let _kw := extractAnchorKeywords o phase.2
    let scored := scoreFilesWithAnchors o.scores phase.1
    let selected := scored.take maxFiles
    (selected,
      if cb then
        [⟨"analyzing_query", none⟩, ⟨"scanning_summaries", some docs.length⟩,
         ⟨"identifying_anchors", none⟩, ⟨"extracting_context", some phase.2.length⟩,
         ⟨"scoring_files", none⟩, ⟨"complete", some selected.length⟩]
      else [])

/-- The scoped candidate pool: only records whose doc_id the user selected
(file_selector_agent.py:272-273). -/
def scopedSummaries (docs : List Doc) (sel : List String) : List Doc :=
  docs.filter (fun d => decide (d.docId ∈ sel))

/-- The fixed scoped-mode relevance threshold 0.3 (file_selector_agent.py:332). -/
def relevanceThreshold : ℚ := mkRat 3 10

/-- Model of `scoped_refinement` (file_selector_agent.py:220-353): filter to
the user's selection, anchor phase (max 3 anchors), scoring, pruning to
scores `≥ 0.3`, truncation to `maxFiles`. When the syllabus is not in the
selection the source looks its record up (lines 277-281) but binds it to a
local variable that is never used afterwards — the looked-up record is NOT
added to the scoped candidate pool; `_syl` mirrors that dead binding. When
the intent response parses to a non-dict, the `query_intent.get` at line 263
raises `AttributeError`, caught only by the outer except (lines 349-353),
which returns `[]` after only `analyzing_query` (line 259) has fired. -/
def scopedRefinement (o : Oracle) (query : String) (docs : List Doc) (sylId : Option String)
    (sel : List String) (maxFiles : Nat) (cb : Bool) : List Doc × List Event :=
  match analyzeQueryIntent o query with
  | .nonDict =>
    ([], if cb then [⟨"analyzing_query", none⟩] else [])
  | .dict _ _ _ _ =>
    let pool := scopedSummaries docs sel
    let _syl : Option Doc :=
      match sylId with
      | some s => if s ∈ sel then none else docs.find? (fun d => decide (d.docId = s))
      | none => none
    let phase := anchorPhase o pool 3
    let _kw := extractAnchorKeywords o phase.2
    let scored := scoreFilesWithAnchors o.scores phase.1
    let pruned :=
      (scored.filter (fun d => decide (relevanceThreshold ≤ d.effScore))).take maxFiles
    (pruned,
      if cb then
        [⟨"analyzing_query", none⟩, ⟨"scanning_summaries", some sel.length⟩,
         ⟨"identifying_anchors", none⟩, ⟨"extracting_context", none⟩,
         ⟨"scoring_files", none⟩, ⟨"complete", some pruned.length⟩]
      else [])

/-- Model of `select_relevant_files` (file_selector_agent.py:47-109): empty
candidates return an empty result immediately — before any status callback
fires; otherwise the candidates are capped at 100 and routed to Global
Discovery (no manual selection) or Scoped Refinement. The syllabus summary
text parameter only feeds prompts and is not modelled. -/
def selectRelevantFiles (o : Oracle) (query : String) (docs : List Doc)
    (sylId : Option String) (selectedDocs : Option (List String)) (maxFiles : Nat)
    (cb : Bool) : List Doc × List Event :=
  if docs = [] then ([], [])
  else
    match selectedDocs with
    | none => globalDiscovery o query (docs.take 100) maxFiles cb
    | some [] => globalDiscovery o query (docs.take 100) maxFiles cb
    | some sel => scopedRefinement o query (docs.take 100) sylId sel maxFiles cb

/-- The pool a selection is stable with respect to: the candidate list after
the anchor phase (same records, same order as the input candidates) with the
parsed scores assigned — the list state just before the sort at
file_selector_agent.py:688. -/
def scoredPoolG (o : Oracle) (docs : List Doc) : List Doc :=
  assignAll o.scores (anchorPhase o docs 5).1

/-- Scoped variant of `scoredPoolG`. -/
def scoredPoolS (o : Oracle) (docs : List Doc) (sel : List String) : List Doc :=
  assignAll o.scores (anchorPhase o (scopedSummaries docs sel) 3).1

/-!
## The event relay loop of the orchestrator

`process_query_stream` (root_agent.py:234-258) drains the status queue with a
short-timeout poll while the selection task runs, then drains the residual
events after the task completes. The callback pushes events synchronously, so
within the single-threaded cooperative scheduler the queue holds the emitted
events in emission order; the relay delivers the first `polled` of them
during the loop and pops the rest one by one afterwards. -/

lemma map_proj_map {β : Type} (f : Doc → Doc) (proj : Doc → β)
    (h : ∀ d, proj (f d) = proj d) (l : List Doc) :
    (l.map f).map proj = l.map proj := by
  induction l with
  | nil => rfl
  | cons x xs ih => simp [h, ih]

lemma markAnchors_core (sel : List AnchorSel) (d : Doc) : (markAnchors sel d).core = d.core := rfl

lemma markAnchors_score (sel : List AnchorSel) (d : Doc) : (markAnchors sel d).score = d.score := rfl

lemma heuristicMark_core (d : Doc) : (heuristicMark d).core = d.core := by
  unfold heuristicMark; split <;> rfl

lemma heuristicMark_score (d : Doc) : (heuristicMark d).score = d.score := by
  unfold heuristicMark; split <;> rfl

lemma assignScore_core (s : List (String × ℚ)) (d : Doc) : (assignScore s d).core = d.core := rfl

lemma identifyAnchorsAI_fst_core (resp : Option (List AnchorSel)) (docs : List Doc)
    (m : Nat) : ((identifyAnchorsAI resp docs m).1).map Doc.core = docs.map Doc.core := by
  cases resp with
  | none => rfl
  | some sel =>
    show ((docs.map _).map Doc.core) = docs.map Doc.core
    refine map_proj_map _ _ (fun d => ?_) docs
    by_cases h : d.docId ∈ anchorIds sel <;> simp [h, markAnchors_core]

lemma identifyAnchorsAI_fst_score (resp : Option (List AnchorSel)) (docs : List Doc)
    (m : Nat) : ((identifyAnchorsAI resp docs m).1).map Doc.score = docs.map Doc.score := by
  cases resp with
  | none => rfl
  | some sel =>
    show ((docs.map _).map Doc.score) = docs.map Doc.score
    refine map_proj_map _ _ (fun d => ?_) docs
    by_cases h : d.docId ∈ anchorIds sel <;> simp [h, markAnchors_score]

lemma identifyAnchorFilesH_fst_core (docs : List Doc) :
    ((identifyAnchorFilesH docs).1).map Doc.core = docs.map Doc.core :=
  map_proj_map _ _ heuristicMark_core docs

lemma identifyAnchorFilesH_fst_score (docs : List Doc) :
    ((identifyAnchorFilesH docs).1).map Doc.score = docs.map Doc.score :=
  map_proj_map _ _ heuristicMark_score docs

lemma anchorPhase_fst_core (o : Oracle) (docs : List Doc) (m : Nat) :
    ((anchorPhase o docs m).1).map Doc.core = docs.map Doc.core := by
  unfold anchorPhase
  split
  · rw [identifyAnchorFilesH_fst_core, identifyAnchorsAI_fst_core]
  · rw [identifyAnchorsAI_fst_core]

lemma anchorPhase_fst_score (o : Oracle) (docs : List Doc) (m : Nat) :
    ((anchorPhase o docs m).1).map Doc.score = docs.map Doc.score := by
  unfold anchorPhase
  split
  · rw [identifyAnchorFilesH_fst_score, identifyAnchorsAI_fst_score]
  · rw [identifyAnchorsAI_fst_score]

lemma anchorPhase_score_none {o : Oracle} {docs : List Doc} {m : Nat}
    (h : ∀ d ∈ docs, d.score = none) :
    ∀ d ∈ (anchorPhase o docs m).1, d.score = none := by
  intro d hd
  have hm : d.score ∈ ((anchorPhase o docs m).1).map Doc.score := List.mem_map_of_mem _ hd
  rw [anchorPhase_fst_score] at hm
  rcases List.mem_map.1 hm with ⟨d', hd', he⟩
  rw [← he]
  exact h d' hd'

lemma map_docId_eq_core_fst (l : List Doc) :
    l.map Doc.docId = (l.map Doc.core).map Prod.fst := by
  induction l with
  | nil => rfl
  | cons x xs ih => simp [Doc.core, ih]

lemma docIds_of_core {l₁ l₂ : List Doc} (h : l₁.map Doc.core = l₂.map Doc.core) :
    l₁.map Doc.docId = l₂.map Doc.docId := by
  rw [map_docId_eq_core_fst, map_docId_eq_core_fst, h]

lemma assignAll_core (resp : Option (List (String × ℚ))) (l : List Doc) :
    (assignAll resp l).map Doc.core = l.map Doc.core := by
  cases resp with
  | none => rfl
  | some s => exact map_proj_map _ _ (assignScore_core s) l

lemma scoreFiles_filter_eq (resp : Option (List (String × ℚ))) (l : List Doc) (q : ℚ) :
    (scoreFilesWithAnchors resp l).filter (fun d => decide (d.effScore = q)) =
      (assignAll resp l).filter (fun d => decide (d.effScore = q)) := by
  cases resp with
  | none => rfl
  | some s => exact filter_sortDesc _ q

lemma scoreFiles_pairwise {resp : Option (List (String × ℚ))} {l : List Doc}
    (h0 : ∀ d ∈ l, d.score = none) :
    (scoreFilesWithAnchors resp l).Pairwise (fun a b => b.effScore ≤ a.effScore) := by
  cases resp with
  | none =>
    exact pairwise_of_all_zero fun d hd => by simp [Doc.effScore, h0 d hd]
  | some s => exact sortDesc_pairwise _

lemma mem_scoreFiles_docIds {resp : Option (List (String × ℚ))} {l : List Doc} {d : Doc}
    (hd : d ∈ scoreFilesWithAnchors resp l) : d.docId ∈ l.map Doc.docId := by
  cases resp with
  | none => exact List.mem_map_of_mem _ hd
  | some s =>
    have hd' : d ∈ l.map (assignScore s) := (sortDesc_perm _).mem_iff.1 hd
    rcases List.mem_map.1 hd' with ⟨d', hd'', he⟩
    have : d.docId = d'.docId := by rw [← he]; rfl
    rw [this]
    exact List.mem_map_of_mem _ hd''

lemma analyzeQueryIntent_ne_nonDict {o : Oracle} (query : String)
    (h : o.intent ≠ some IntentResult.nonDict) :
    analyzeQueryIntent o query ≠ IntentResult.nonDict := by
  cases ho : o.intent with
  | none => simp [analyzeQueryIntent, ho]
  | some r =>
    cases r with
    | dict m qt sc hints => simp [analyzeQueryIntent, ho]
    | nonDict => exact absurd ho h

/-- A global-discovery run either aborts on a non-dict intent (returning
nothing) or reaches the scoring step and returns the truncated sorted pool. -/
lemma globalDiscovery_fst (o : Oracle) (query : String) (docs : List Doc) (maxFiles : Nat)
    (cb : Bool) :
    (globalDiscovery o query docs maxFiles cb).1 = [] ∨
    (globalDiscovery o query docs maxFiles cb).1 =
      (scoreFilesWithAnchors o.scores (anchorPhase o docs 5).1).take maxFiles := by
  cases hi : analyzeQueryIntent o query with
  | dict m qt sc hints => right; simp [globalDiscovery, hi]
  | nonDict => left; simp [globalDiscovery, hi]

/-- A scoped-refinement run either aborts on a non-dict intent (returning
nothing) or reaches the pruning step and returns the truncated filtered pool. -/
lemma scopedRefinement_fst (o : Oracle) (query : String) (docs : List Doc)
    (sylId : Option String) (sel : List String) (maxFiles : Nat) (cb : Bool) :
    (scopedRefinement o query docs sylId sel maxFiles cb).1 = [] ∨
    (scopedRefinement o query docs sylId sel maxFiles cb).1 =
      ((scoreFilesWithAnchors o.scores (anchorPhase o (scopedSummaries docs sel) 3).1).filter
        (fun d => decide (relevanceThreshold ≤ d.effScore))).take maxFiles := by
  cases hi : analyzeQueryIntent o query with
  | dict m qt sc hints => right; simp [scopedRefinement, hi]
  | nonDict => left; simp [scopedRefinement, hi]

/-!
## Claims about the selector
-/

/-- C1: every selection produced by the Selector — `global_discovery` or
`scoped_refinement` — is sorted by effective score in non-increasing order,
ties preserve the candidates' input relative order (for every score value the
returned records with that score form a sublist of the scored candidate pool,
whose records are the input candidates in input order, as the two final `core`
equations state), and the length is at most the caller-supplied `max_files`.
The hypothesis says the candidate records arrive from upstream without a
`_score` key, which is how the selector always receives them. -/
theorem C1_selection_sorted_stable_truncated (o : Oracle) (query : String) (docs : List Doc)
    (sylId : Option String) (sel : List String) (maxFiles : Nat)
    (hfresh : ∀ d ∈ docs, d.score = none) :
    ((globalDiscovery o query docs maxFiles true).1.Pairwise
        (fun a b => b.effScore ≤ a.effScore) ∧
      (globalDiscovery o query docs maxFiles true).1.length ≤ maxFiles ∧
      ∀ q : ℚ, List.Sublist
        ((globalDiscovery o query docs maxFiles true).1.filter
          (fun d => decide (d.effScore = q)))
        ((scoredPoolG o docs).filter (fun d => decide (d.effScore = q)))) ∧
    ((scopedRefinement o query docs sylId sel maxFiles true).1.Pairwise
        (fun a b => b.effScore ≤ a.effScore) ∧
      (scopedRefinement o query docs sylId sel maxFiles true).1.length ≤ maxFiles ∧
      ∀ q : ℚ, List.Sublist
        ((scopedRefinement o query docs sylId sel maxFiles true).1.filter
          (fun d => decide (d.effScore = q)))
        ((scoredPoolS o docs sel).filter (fun d => decide (d.effScore = q)))) ∧
    (scoredPoolG o docs).map Doc.core = docs.map Doc.core ∧
    (scoredPoolS o docs sel).map Doc.core = (scopedSummaries docs sel).map Doc.core := by
  have hg0 : ∀ d ∈ (anchorPhase o docs 5).1, d.score = none := anchorPhase_score_none hfresh
  have hfreshS : ∀ d ∈ scopedSummaries docs sel, d.score = none := fun d hd =>
    hfresh d (List.mem_of_mem_filter hd)
  have hs0 : ∀ d ∈ (anchorPhase o (scopedSummaries docs sel) 3).1, d.score = none :=
    anchorPhase_score_none hfreshS
  refine ⟨⟨?_, ?_, ?_⟩, ⟨?_, ?_, ?_⟩, ?_, ?_⟩
  · rcases globalDiscovery_fst o query docs maxFiles true with h | h
    · rw [h]
      exact List.Pairwise.nil
    · rw [h]
      exact List.Pairwise.sublist (List.take_sublist _ _) (scoreFiles_pairwise hg0)
  · rcases globalDiscovery_fst o query docs maxFiles true with h | h
    · rw [h]
      exact Nat.zero_le _
    · rw [h, List.length_take]
      exact min_le_left _ _
  · intro q
    rcases globalDiscovery_fst o query docs maxFiles true with h | h
    · rw [h, List.filter_nil]
      exact List.nil_sublist _
    · rw [h]
      have h1 := List.Sublist.filter (fun d => decide (d.effScore = q))
        (List.take_sublist maxFiles (scoreFilesWithAnchors o.scores (anchorPhase o docs 5).1))
      rw [scoreFiles_filter_eq] at h1
      exact h1
  · rcases scopedRefinement_fst o query docs sylId sel maxFiles true with h | h
    · rw [h]
      exact List.Pairwise.nil
    · rw [h]
      have hp : (scoreFilesWithAnchors o.scores
          (anchorPhase o (scopedSummaries docs sel) 3).1).Pairwise
          (fun a b => b.effScore ≤ a.effScore) := @scoreFiles_pairwise o.scores _ hs0
      exact List.Pairwise.sublist ((List.take_sublist _ _).trans (List.filter_sublist _)) hp
  · rcases scopedRefinement_fst o query docs sylId sel maxFiles true with h | h
    · rw [h]
      exact Nat.zero_le _
    · rw [h, List.length_take]
      exact min_le_left _ _
  · intro q
    rcases scopedRefinement_fst o query docs sylId sel maxFiles true with h | h
    · rw [h, List.filter_nil]
      exact List.nil_sublist _
    · rw [h]
      have hsub : List.Sublist
          ((List.filter (fun d => decide (relevanceThreshold ≤ d.effScore))
            (scoreFilesWithAnchors o.scores (anchorPhase o (scopedSummaries docs sel) 3).1)).take
              maxFiles)
          (scoreFilesWithAnchors o.scores (anchorPhase o (scopedSummaries docs sel) 3).1) :=
        (List.take_sublist _ _).trans (List.filter_sublist _)
      have h1 := List.Sublist.filter (fun d => decide (d.effScore = q)) hsub
      rw [scoreFiles_filter_eq] at h1
      exact h1
  · show (assignAll o.scores (anchorPhase o docs 5).1).map Doc.core = docs.map Doc.core
    rw [assignAll_core, anchorPhase_fst_core]
  · show (assignAll o.scores (anchorPhase o (scopedSummaries docs sel) 3).1).map Doc.core =
      (scopedSummaries docs sel).map Doc.core
    rw [assignAll_core, anchorPhase_fst_core]

/-- C1 witness: the sortedness part of C1 evaluated on two concrete fresh
candidates with concrete parsed scores. -/
theorem C1_witness :
    (∀ d ∈ [(⟨"a", "a.pdf", "s", [], none, none, none⟩ : Doc),
            (⟨"b", "b.pdf", "s", [], none, none, none⟩ : Doc)], d.score = none) ∧
    (globalDiscovery ⟨none, none, none, some [("a", mkRat 1 2), ("b", mkRat 9 10)]⟩ "q"
        [⟨"a", "a.pdf", "s", [], none, none, none⟩, ⟨"b", "b.pdf", "s", [], none, none, none⟩]
        15 true).1.Pairwise (fun a b => b.effScore ≤ a.effScore) :=
  ⟨by decide,
    ((C1_selection_sorted_stable_truncated
      ⟨none, none, none, some [("a", mkRat 1 2), ("b", mkRat 9 10)]⟩ "q"
      [⟨"a", "a.pdf", "s", [], none, none, none⟩, ⟨"b", "b.pdf", "s", [], none, none, none⟩]
      none ["a"] 15 (by decide)).1).1⟩

/-- C4: every record returned by `scoped_refinement` is drawn from the user's
original selection and has effective score at least the 0.3 threshold
(unconditionally — on the non-dict-intent abort path the result is empty);
and the pruning happens before the truncation: on every run that reaches the
pruning step (intent response absent, unparsable, or a parsed object — on the
abort path scoring never runs at all), the result length is exactly
`min max_files (number of scored candidates meeting the threshold)` — a
truncate-then-prune order would only give an inequality. (The syllabus is
never added to the scoped pool, so membership needs no syllabus exception.) -/
theorem C4_scoped_subset_threshold (o : Oracle) (query : String) (docs : List Doc)
    (sylId : Option String) (sel : List String) (maxFiles : Nat) :
    (∀ d ∈ (scopedRefinement o query docs sylId sel maxFiles true).1,
        d.docId ∈ sel ∧ relevanceThreshold ≤ d.effScore) ∧
    (o.intent ≠ some IntentResult.nonDict →
      (scopedRefinement o query docs sylId sel maxFiles true).1.length =
        min maxFiles ((scoreFilesWithAnchors o.scores
            (anchorPhase o (scopedSummaries docs sel) 3).1).filter
          (fun d => decide (relevanceThreshold ≤ d.effScore))).length) := by
  constructor
  · intro d hd
    rcases scopedRefinement_fst o query docs sylId sel maxFiles true with h | h
    · rw [h] at hd
      exact absurd hd (List.not_mem_nil d)
    · rw [h] at hd
      have hd1 := List.mem_of_mem_take hd
      rcases List.mem_filter.1 hd1 with ⟨hd2, hthr⟩
      refine ⟨?_, of_decide_eq_true hthr⟩
      have hid : d.docId ∈ ((anchorPhase o (scopedSummaries docs sel) 3).1).map Doc.docId :=
        mem_scoreFiles_docIds hd2
      rw [docIds_of_core (anchorPhase_fst_core o (scopedSummaries docs sel) 3)] at hid
      rcases List.mem_map.1 hid with ⟨d', hd', he⟩
      rcases List.mem_filter.1 hd' with ⟨_, hsel⟩
      rw [← he]
      exact of_decide_eq_true hsel
  · intro hintent
    have hne := analyzeQueryIntent_ne_nonDict query hintent
    cases hi : analyzeQueryIntent o query with
    | nonDict => exact absurd hi hne
    | dict m qt sc hints =>
      have hSfst : (scopedRefinement o query docs sylId sel maxFiles true).1 =
          ((scoreFilesWithAnchors o.scores (anchorPhase o (scopedSummaries docs sel) 3).1).filter
            (fun d => decide (relevanceThreshold ≤ d.effScore))).take maxFiles := by
        simp [scopedRefinement, hi]
      rw [hSfst, List.length_take]

/-- C4 witness: a concrete scoped run in which one of the two selected
documents survives the 0.3 threshold; membership and both conclusions are
evaluated on it. -/
theorem C4_witness :
    ((⟨"a", "a.pdf", "s", [], some (mkRat 9 10), none, none⟩ : Doc) ∈
      (scopedRefinement ⟨none, none, none, some [("a", mkRat 9 10), ("b", mkRat 1 10)]⟩ "q"
        [⟨"a", "a.pdf", "s", [], none, none, none⟩, ⟨"b", "b.pdf", "s", [], none, none, none⟩]
        none ["a", "b"] 15 true).1 ∧
      ((⟨"a", "a.pdf", "s", [], some (mkRat 9 10), none, none⟩ : Doc).docId ∈ ["a", "b"] ∧
        relevanceThreshold ≤
          (⟨"a", "a.pdf", "s", [], some (mkRat 9 10), none, none⟩ : Doc).effScore)) ∧
    (scopedRefinement ⟨none, none, none, some [("a", mkRat 9 10), ("b", mkRat 1 10)]⟩ "q"
        [⟨"a", "a.pdf", "s", [], none, none, none⟩, ⟨"b", "b.pdf", "s", [], none, none, none⟩]
        none ["a", "b"] 15 true).1.length =
      min 15 ((scoreFilesWithAnchors (some [("a", mkRat 9 10), ("b", mkRat 1 10)])
          (anchorPhase ⟨none, none, none, some [("a", mkRat 9 10), ("b", mkRat 1 10)]⟩
            (scopedSummaries
              [⟨"a", "a.pdf", "s", [], none, none, none⟩,
               ⟨"b", "b.pdf", "s", [], none, none, none⟩] ["a", "b"]) 3).1).filter
        (fun d => decide (relevanceThreshold ≤ d.effScore))).length :=
  ⟨⟨by decide,
    (C4_scoped_subset_threshold ⟨none, none, none, some [("a", mkRat 9 10), ("b", mkRat 1 10)]⟩
        "q"
        [⟨"a", "a.pdf", "s", [], none, none, none⟩, ⟨"b", "b.pdf", "s", [], none, none, none⟩]
        none ["a", "b"] 15).1
      ⟨"a", "a.pdf", "s", [], some (mkRat 9 10), none, none⟩ (by decide)⟩,
    (C4_scoped_subset_threshold ⟨none, none, none, some [("a", mkRat 9 10), ("b", mkRat 1 10)]⟩
        "q"
        [⟨"a", "a.pdf", "s", [], none, none, none⟩, ⟨"b", "b.pdf", "s", [], none, none, none⟩]
        none ["a", "b"] 15).2 (by decide)⟩

/-- C5 counterexample: with empty candidates, `select_relevant_files` returns
before any status callback fires (file_selector_agent.py:78-80) — the claimed
`complete` event with count 0 is never emitted. -/
theorem C5_cex_empty_emits_no_complete :
    (selectRelevantFiles ⟨none, none, none, none⟩ "q" [] none none 15 true).1 = [] ∧
    ¬ ∃ e ∈ (selectRelevantFiles ⟨none, none, none, none⟩ "q" [] none none 15 true).2,
        e.stage = "complete" := by decide

/-- C5 (amended): if the candidate list is empty, `select_relevant_files`
returns an empty selection and emits no progress event at all — the status
callback is never invoked. -/
theorem C5_empty_candidates_amended (o : Oracle) (query : String) (sylId : Option String)
    (selectedDocs : Option (List String)) (maxFiles : Nat) (cb : Bool) :
    selectRelevantFiles o query [] sylId selectedDocs maxFiles cb = ([], []) := rfl

/-- C6: if the scoring call fails entirely (no response or unparsable JSON),
the candidate list is returned unchanged — original order, same records — and
every candidate's effective score (`f.get('_score', 0)`) is 0; the function
is total, so selection never raises. The hypothesis says the candidates
arrive from upstream without a `_score` key. -/
theorem C6_scoring_failure_preserves_input (docs : List Doc)
    (hfresh : ∀ d ∈ docs, d.score = none) :
    scoreFilesWithAnchors none docs = docs ∧ ∀ d ∈ docs, d.effScore = 0 := by
  refine ⟨rfl, fun d hd => ?_⟩
  simp [Doc.effScore, hfresh d hd]

/-- C6 witness: the failure path evaluated on two concrete candidates. -/
theorem C6_witness :
    (∀ d ∈ [(⟨"a", "a.pdf", "s", [], none, none, none⟩ : Doc),
            (⟨"b", "b.pdf", "s", [], none, none, none⟩ : Doc)], d.score = none) ∧
    (scoreFilesWithAnchors none
        [⟨"a", "a.pdf", "s", [], none, none, none⟩, ⟨"b", "b.pdf", "s", [], none, none, none⟩] =
      [⟨"a", "a.pdf", "s", [], none, none, none⟩, ⟨"b", "b.pdf", "s", [], none, none, none⟩] ∧
    ∀ d ∈ [(⟨"a", "a.pdf", "s", [], none, none, none⟩ : Doc),
           (⟨"b", "b.pdf", "s", [], none, none, none⟩ : Doc)], d.effScore = 0) :=
  ⟨by decide, C6_scoring_failure_preserves_input _ (by decide)⟩

/-- C10 counterexample: the scoring step does mutate its input — it writes
the `_score` key into the records and reorders the caller's list in place
(`file_summaries.sort`, file_selector_agent.py:684-690). The model returns
the post-call state of the caller's list, which differs from its pre-call
state on this concrete input. -/
theorem C10_cex_mutation :
    scoreFilesWithAnchors (some [("b", 1)])
        [⟨"a", "a.pdf", "s", [], none, none, none⟩, ⟨"b", "b.pdf", "s", [], none, none, none⟩] ≠
      [⟨"a", "a.pdf", "s", [], none, none, none⟩, ⟨"b", "b.pdf", "s", [], none, none, none⟩] := by
  decide

/-- C10 (amended): the Selector does mutate its inputs — `_score_files_with_anchors`
writes `_score` into every record and sorts the caller's list in place, and
`_identify_anchors_ai` / the heuristic fallback write `_anchor_reasoning` and
`_anchor_score` into matched records — but the upstream fields of every
record (`doc_id`, `filename`, `summary`, `topics`) are never modified, and
the caller's list always holds exactly the same records (as a multiset of
upstream fields: a permutation for the sorting step, the identity for the
anchor steps). -/
theorem C10_core_fields_preserved (resp : Option (List (String × ℚ)))
    (aresp : Option (List AnchorSel)) (docs : List Doc) (m : Nat) :
    List.Perm ((scoreFilesWithAnchors resp docs).map Doc.core) (docs.map Doc.core) ∧
    ((identifyAnchorsAI aresp docs m).1).map Doc.core = docs.map Doc.core ∧
    ((identifyAnchorFilesH docs).1).map Doc.core = docs.map Doc.core := by
  refine ⟨?_, identifyAnchorsAI_fst_core _ _ _, identifyAnchorFilesH_fst_core _⟩
  cases resp with
  | none => exact List.Perm.refl _
  | some s =>
    have h1 : List.Perm ((sortDesc (docs.map (assignScore s))).map Doc.core)
        ((docs.map (assignScore s)).map Doc.core) := (sortDesc_perm _).map _
    have h2 : (docs.map (assignScore s)).map Doc.core = docs.map Doc.core :=
      map_proj_map _ _ (assignScore_core s) docs
    rw [h2] at h1
    exact h1

/-!
## The external-call helper with rate-limit fallback

`_call_ai_with_fallback` (file_selector_agent.py:696-734). The two model
endpoints are oracles mapping call parameters to an outcome: either a
response (whose text may be missing/empty) or a raised exception with its
message text.
-/

/-- Parameters of one external call: prompt, max_tokens, temperature. -/
structure AIParams where
  prompt : String
  maxTokens : Nat
  temperature : ℚ
  deriving Repr, DecidableEq

/-- Outcome of one attempt against a model endpoint. `ok none` stands for a
falsy response object or missing text. -/
inductive AIOutcome where
  | ok (text : Option String)
  | err (msg : String)
  deriving Repr, DecidableEq

/-- `if not response or not response.text: return None; return response.text.strip()`
(and identically `response.text.strip() if response and response.text else None`
on the fallback attempt). -/
def respText : Option String → Option String
  | none => none
  | some s => if s = "" then none else some s.trim

/-- Python `'429' in error_str or 'quota' in error_str or 'rate' in error_str`
over the lowercased exception text (file_selector_agent.py:719-720). -/
def isRateLimitMsg (msg : String) : Bool :=
  containsSub "429".data (lowerChars msg.data) ||
    containsSub "quota".data (lowerChars msg.data) ||
    containsSub "rate".data (lowerChars msg.data)

/-- Model of `_call_ai_with_fallback`: try the primary model; if it raises
and the error text signals quota/rate limiting, retry exactly once against
the fallback model with the same parameters; any other failure — a
non-rate-limit primary error, or any error of the fallback attempt — yields
`none`. Total, so no exception ever propagates to the caller. -/
def callAIWithFallback (primary secondary : AIParams → AIOutcome) (p : AIParams) :
    Option String :=
  match primary p with
  | .ok t => respText t
  | .err e =>
    if isRateLimitMsg e then
      match secondary p with
      | .ok t => respText t
      | .err _ => none
    else none

/-- C9: the primary model is tried first (a primary response is returned
without consulting the fallback); exactly when the raised error's text
signals quota/rate limiting there is one retry against the secondary model
with identical parameters `p`; a non-rate-limit error, or a failing retry,
yields "no response" (`none`) — and the helper is a total function, so no
exception propagates. -/
theorem C9_rate_limit_fallback (primary secondary : AIParams → AIOutcome) (p : AIParams) :
    (∀ t, primary p = .ok t → callAIWithFallback primary secondary p = respText t) ∧
    (∀ e, primary p = .err e → isRateLimitMsg e = true →
      callAIWithFallback primary secondary p =
        (match secondary p with
         | .ok t => respText t
         | .err _ => none)) ∧
    (∀ e, primary p = .err e → isRateLimitMsg e = false →
      callAIWithFallback primary secondary p = none) := by
  refine ⟨?_, ?_, ?_⟩
  · intro t h
    simp [callAIWithFallback, h]
  · intro e h hrate
    simp [callAIWithFallback, h, hrate]
  · intro e h hrate
    simp [callAIWithFallback, h, hrate]

/-- C9 witness: a rate-limited primary call followed by a succeeding
fallback call, evaluated concretely. -/
theorem C9_witness :
    callAIWithFallback (fun _ => AIOutcome.err "Error 429: quota exceeded, rate limit")
      (fun _ => AIOutcome.ok (some "fallback answer")) ⟨"prompt", 1000, 0⟩ =
      some ("fallback answer".trim) := by
  have h := (C9_rate_limit_fallback (fun _ => AIOutcome.err "Error 429: quota exceeded, rate limit")
    (fun _ => AIOutcome.ok (some "fallback answer")) ⟨"prompt", 1000, 0⟩).2.1
    "Error 429: quota exceeded, rate limit" rfl (by decide)
  rw [h]
  simp [respText]

/-!
## The session upload cache of the orchestrator

`process_query_stream`, step 3 (root_agent.py:376-461). The per-session
state is `session_uploads.get(session_id)`; a missing record reads as the
empty id set. The model covers an invocation that reaches the upload step
with a session id present (the surrounding code guarantees a non-empty
candidate set there). `uploaded` is the list of file handles the uploader
returns on a miss; on zero successes the code returns early and the cached
record is left unchanged.
-/

/-- A session's cached upload record: the exact id set last uploaded and the
resulting file handles. -/
structure CacheRecord where
  docIds : Finset String
  fileInfo : List String
  deriving DecidableEq

/-- `session_cache.get("doc_ids", set())`. -/
def cachedIds : Option CacheRecord → Finset String
  | none => ∅
  | some r => r.docIds

/-- `session_cache.get("file_info", [])`. -/
def cachedFiles : Option CacheRecord → List String
  | none => []
  | some r => r.fileInfo

/-- The hit test `cached_doc_ids == selected_doc_ids` (root_agent.py:401). -/
def isCacheHit (state : Option CacheRecord) (candidates : Finset String) : Bool :=
  decide (cachedIds state = candidates)

/-- One pass through the cache step: returns the file handles used, the
number of upload rounds performed (0 or 1), and the new session state. -/
def getOrUpload (state : Option CacheRecord) (candidates : Finset String)
    (uploaded : List String) : List String × Nat × Option CacheRecord :=
  if isCacheHit state candidates then (cachedFiles state, 0, state)
  else if uploaded = [] then ([], 1, state)
  else (uploaded, 1, some ⟨candidates, uploaded⟩)

/-- C7: a cache hit occurs exactly when a record exists for the session and
its stored id set equals the candidate id set (a missing record never hits a
non-empty candidate set); two consecutive invocations with the identical id
set perform exactly one upload round and the second serves the cached
handles; any changed id set — regardless of overlap — forces a fresh upload
round. -/
theorem C7_cache_exact_match (state : Option CacheRecord) (c c' : Finset String)
    (u u' u'' : List String) (hne : c.Nonempty) (hu : u ≠ []) (hdiff : c' ≠ c) :
    (isCacheHit state c = true ↔ ∃ r, state = some r ∧ r.docIds = c) ∧
    (getOrUpload none c u).2.1 = 1 ∧
    (getOrUpload (getOrUpload none c u).2.2 c u').2.1 = 0 ∧
    (getOrUpload (getOrUpload none c u).2.2 c u').1 = u ∧
    (getOrUpload (getOrUpload none c u).2.2 c' u'').2.1 = 1 := by
  have hes : (∅ : Finset String) ≠ c := fun h => hne.ne_empty h.symm
  have hstep1 : getOrUpload none c u = (u, 1, some ⟨c, u⟩) := by
    simp [getOrUpload, isCacheHit, cachedIds, hes, hu]
  refine ⟨⟨?_, ?_⟩, ?_, ?_, ?_, ?_⟩
  · intro h
    cases state with
    | none => exact absurd (of_decide_eq_true h) hes
    | some r => exact ⟨r, rfl, of_decide_eq_true h⟩
  · rintro ⟨r, hs, hid⟩
    subst hs
    simp [isCacheHit, cachedIds, hid]
  · rw [hstep1]
  · rw [hstep1]
    simp [getOrUpload, isCacheHit, cachedIds, cachedFiles]
  · rw [hstep1]
    simp [getOrUpload, isCacheHit, cachedIds, cachedFiles]
  · rw [hstep1]
    have hne2 : c ≠ c' := fun h => hdiff h.symm
    have hhit : isCacheHit (some ⟨c, u⟩) c' = false := by
      simp [isCacheHit, cachedIds]
      exact hne2
    simp only [getOrUpload, hhit]
    split_ifs <;> simp_all

/-- C7 witness: a fresh session uploading `{a, b}`, re-asking `{a, b}`, then
switching to `{a, c}`, evaluated concretely. -/
theorem C7_witness :
    (getOrUpload none ({"a", "b"} : Finset String) ["f1"]).2.1 = 1 ∧
    (getOrUpload (getOrUpload none ({"a", "b"} : Finset String) ["f1"]).2.2
      {"a", "b"} ["g"]).2.1 = 0 ∧
    (getOrUpload (getOrUpload none ({"a", "b"} : Finset String) ["f1"]).2.2
      {"a", "c"} ["h"]).2.1 = 1 := by
  have h := C7_cache_exact_match none {"a", "b"} {"a", "c"} ["f1"] ["g"] ["h"]
    (by decide) (by decide) (by decide)
  exact ⟨h.2.1, h.2.2.1, h.2.2.2.2⟩

/-!
## Resolution of the final material set in the orchestrator

`process_query_stream`, step 2 (root_agent.py:147-359): the candidate set
handed to the downstream upload and generation services is `materials_to_use`.
-/

/-- A catalog entry as returned by `get_material_catalog`; only the fields
the orchestrator reads are modelled. -/
structure Material where
  id : String
  name : String
  path : Option String := none
  deriving Repr, DecidableEq

/-- The doc_ids of the files the selector chose in the smart path
(`selected_doc_ids`, root_agent.py:266). -/
def smartSelIds (o : Oracle) (query : String) (summaries : List Doc) (sylId : Option String)
    (selectedDocs : Option (List String)) (maxFiles : Nat) : List String :=
  ((selectRelevantFiles o query summaries sylId selectedDocs maxFiles true).1).map Doc.docId

/-- `materials_to_use = [m for m in all_materials if m["id"] in selected_doc_ids]`
(root_agent.py:269). -/
def smartBase (o : Oracle) (query : String) (catalog : List Material) (summaries : List Doc)
    (sylId : Option String) (selectedDocs : Option (List String)) (maxFiles : Nat) :
    List Material :=
  catalog.filter (fun m =>
    decide (m.id ∈ smartSelIds o query summaries sylId selectedDocs maxFiles))

/-- Model of the smart-selection branch of `process_query_stream`
(root_agent.py:221-284): run the selector; if it returns nothing, fall back
to the whole catalog (root_agent.py:260-263); otherwise keep the catalog
entries among the selected ids and append the syllabus entry when its id is
known, not among the selected ids, and present in the catalog
(root_agent.py:272-276). -/
def smartMaterials (o : Oracle) (query : String) (catalog : List Material)
    (summaries : List Doc) (sylId : Option String) (selectedDocs : Option (List String))
    (maxFiles : Nat) : List Material :=
  if (selectRelevantFiles o query summaries sylId selectedDocs maxFiles true).1 = [] then
    catalog
  else
    match sylId with
    | none => smartBase o query catalog summaries sylId selectedDocs maxFiles
    | some s =>
      if s ∈ smartSelIds o query summaries sylId selectedDocs maxFiles then
        smartBase o query catalog summaries sylId selectedDocs maxFiles
      else
        match catalog.find? (fun m => decide (m.id = s)) with
        | some msyl =>
          smartBase o query catalog summaries sylId selectedDocs maxFiles ++ [msyl]
        | none => smartBase o query catalog summaries sylId selectedDocs maxFiles

/-- The extension-insensitive matching of the manual path
(root_agent.py:307-331): for each selected id, all catalog entries whose
stripped id equals the stripped selected id, in catalog order. -/
def matchSelected (catalog : List Material) : List String → List Material
  | [] => []
  | sid :: rest =>
    catalog.filter (fun m =>
      decide (strip_extension_for_matching m.id = strip_extension_for_matching sid)) ++
      matchSelected catalog rest

/-- Model of the manual-selection branch (root_agent.py:286-354): match the
selection against the catalog with extension stripping, then append the
syllabus entry when its id is known, not among the raw selected ids, and
present in the catalog (root_agent.py:349-354). -/
def manualMaterials (catalog : List Material) (selectedDocs : List String)
    (sylId : Option String) : List Material :=
  let matched := matchSelected catalog selectedDocs
  match sylId with
  | none => matched
  | some s =>
    if s ∈ selectedDocs then matched
    else
      match catalog.find? (fun m => decide (m.id = s)) with
      | some msyl => matched ++ [msyl]
      | none => matched

lemma mem_matchSelected {catalog : List Material} {m : Material} {sid : String} :
    ∀ {sel : List String}, sid ∈ sel →
      m ∈ catalog.filter (fun x =>
        decide (strip_extension_for_matching x.id = strip_extension_for_matching sid)) →
      m ∈ matchSelected catalog sel
  | [], h, _ => absurd h (List.not_mem_nil sid)
  | t :: rest, h, hm => by
    rw [matchSelected]
    rcases List.mem_cons.1 h with h1 | h2
    · subst h1
      exact List.mem_append_left _ hm
    · exact List.mem_append_right _ (mem_matchSelected h2 hm)

/-- C3: whenever the syllabus id is known and a catalog entry carries it, the
material set handed to the downstream upload/generation services contains the
syllabus — in the smart path (which covers both Global Discovery,
`selectedDocs = none/[]`, and Scoped Refinement, `selectedDocs` non-empty)
and in the manual path; moreover, when the syllabus is not already present by
identifier in the resolved set, it is appended at the end. -/
theorem C3_syllabus_included (o : Oracle) (query : String) (catalog : List Material)
    (summaries : List Doc) (selectedDocs : Option (List String)) (sel : List String)
    (maxFiles : Nat) (s : String) (msyl : Material)
    (hfind : catalog.find? (fun m => decide (m.id = s)) = some msyl) :
    (∃ m ∈ smartMaterials o query catalog summaries (some s) selectedDocs maxFiles,
      m.id = s) ∧
    (∃ m ∈ manualMaterials catalog sel (some s), m.id = s) ∧
    (s ∉ sel → manualMaterials catalog sel (some s) = matchSelected catalog sel ++ [msyl]) ∧
    ((selectRelevantFiles o query summaries (some s) selectedDocs maxFiles true).1 ≠ [] →
      s ∉ smartSelIds o query summaries (some s) selectedDocs maxFiles →
      smartMaterials o query catalog summaries (some s) selectedDocs maxFiles =
        smartBase o query catalog summaries (some s) selectedDocs maxFiles ++ [msyl]) := by
  have hmem : msyl ∈ catalog := List.mem_of_find?_eq_some hfind
  have hid : msyl.id = s := by
    have h1 := List.find?_some hfind
    simpa using h1
  refine ⟨?_, ?_, ?_, ?_⟩
  · by_cases hempty :
      (selectRelevantFiles o query summaries (some s) selectedDocs maxFiles true).1 = []
    · refine ⟨msyl, ?_, hid⟩
      simp [smartMaterials, hempty, hmem]
    · by_cases hsel : s ∈ smartSelIds o query summaries (some s) selectedDocs maxFiles
      · refine ⟨msyl, ?_, hid⟩
        simp only [smartMaterials, if_neg hempty, if_pos hsel]
        exact List.mem_filter.2 ⟨hmem, by simp [hid, hsel]⟩
      · refine ⟨msyl, ?_, hid⟩
        simp only [smartMaterials, if_neg hempty, if_neg hsel, hfind]
        exact List.mem_append_right _ (List.mem_singleton.2 rfl)
  · by_cases hs : s ∈ sel
    · refine ⟨msyl, ?_, hid⟩
      have hm : msyl ∈ catalog.filter (fun x =>
          decide (strip_extension_for_matching x.id = strip_extension_for_matching s)) :=
        List.mem_filter.2 ⟨hmem, by simp [hid]⟩
      have := mem_matchSelected hs hm
      simp only [manualMaterials, if_pos hs]
      exact this
    · refine ⟨msyl, ?_, hid⟩
      simp only [manualMaterials, if_neg hs, hfind]
      exact List.mem_append_right _ (List.mem_singleton.2 rfl)
  · intro hs
    simp [manualMaterials, hs, hfind]
  · intro hne hsel
    simp [smartMaterials, hne, hsel, hfind]

/-- C3 witness: a one-entry catalog holding the syllabus, with an empty
summary store (Global Discovery smart path falls back to the full catalog)
and an empty manual selection. -/
theorem C3_witness :
    ([(⟨"syl", "Syllabus", none⟩ : Material)].find? (fun m => decide (m.id = "syl")) =
      some ⟨"syl", "Syllabus", none⟩) ∧
    (∃ m ∈ smartMaterials ⟨none, none, none, none⟩ "q" [⟨"syl", "Syllabus", none⟩] []
        (some "syl") none 15, m.id = "syl") ∧
    (∃ m ∈ manualMaterials [⟨"syl", "Syllabus", none⟩] [] (some "syl"), m.id = "syl") := by
  have h := C3_syllabus_included ⟨none, none, none, none⟩ "q" [⟨"syl", "Syllabus", none⟩] []
    none [] 15 "syl" ⟨"syl", "Syllabus", none⟩ (by decide)
  exact ⟨by decide, h.1, h.2.1⟩

end CanvasExt
